import Mathlib

/-!
Verification development for the SPMD sharding-rule core of
`paddle/fluid/distributed/auto_parallel/spmd_rules/common.cc`.

Modelling conventions (shallow embedding):

* `PADDLE_THROW` is modelled with `Except`: a thrown error aborts the whole
  call and yields `Except.error`, never a partial result.
* `std::unordered_map` is modelled as an association list with unique keys,
  kept in insertion order.  Iteration order of an `unordered_map` is
  unspecified in C++; we fix it to insertion order.  None of the statements
  below depend on iteration order except through list-valued results, and
  those are only stated for inputs where the order is forced (singleton
  results) or where the statement is order-insensitive.
* A tensor axis label `pair.first.substr(i, 1)` is a single character and is
  modelled as `Char`; an axis-notation string is modelled as `List Char`.
* The nested loops of `ShardingMergeForTensors` (outer loop over tensor
  pairs, inner loop over positions `i < pair.second.size()`) process, in
  order, the stream of pairs `(notationChars[i], shardingVector[i])`.  On the
  function's contract domain (notation and sharding vector of each tensor
  have equal length) this stream is exactly `t.1.zip t.2` concatenated over
  the tensors; theorems that quantify over arbitrary inputs carry this
  equal-length hypothesis.
* `TensorDistAttr`, `DistTensorSpec` and the attribute map are declared in
  headers that are not part of the provided source; they are modelled from
  the spec (see the doc comments below).
-/

/-- Errors raised via `PADDLE_THROW` in common.cc.  The base-class methods
throw an "Unimplemented" error carrying a message; `ShardingMergeForAxis`
throws an error whose payload identifies the conflicting axis and the two
competing mesh dimensions (the spec's "Conflict" error kind). -/
inductive SpmdError where
  | unimplemented (msg : String) : SpmdError
  | conflict (axis : Char) (dim1 dim2 : Int) : SpmdError
deriving DecidableEq

/-- Left-biased choice on options, used to express "first occurrence wins"
lookups. -/
def orO {α : Type} (a b : Option α) : Option α :=
  match a with
  | some v => some v
  | none => b

/-- `m.count(k) / m[k]` read access of `std::unordered_map`, on the
association-list model: the value stored at key `k`, if any. -/
def lookupA {α β : Type} [DecidableEq α] (m : List (α × β)) (k : α) : Option β :=
  match m with
  | [] => none
  | p :: rest => if p.1 = k then some p.2 else lookupA rest k

/-- `m.insert({k, v})` of `std::unordered_map`: a no-op when the key is
already present, otherwise the new entry is added. -/
def insertA {α β : Type} [DecidableEq α] (m : List (α × β)) (k : α) (v : β) : List (α × β) :=
  match m with
  | [] => [(k, v)]
  | p :: rest => if p.1 = k then p :: rest else p :: insertA rest k v

/-- `m[k] = v` of `std::unordered_map`: overwrite the entry if present,
otherwise add it. -/
def assignA {α β : Type} [DecidableEq α] (m : List (α × β)) (k : α) (v : β) : List (α × β) :=
  match m with
  | [] => [(k, v)]
  | p :: rest => if p.1 = k then (k, v) :: rest else p :: assignA rest k v

/-- `ShardingMergeForAxis` from common.cc.  The axis is a single-character
label; mesh dimensions use the sentinel `-1` for "replicated".  The code:
if the two dimensions differ, a replicated side yields to the other, and two
non-replicated sides raise the conflict error identifying the axis and both
dimensions; equal dimensions are returned unchanged. -/
def ShardingMergeForAxis (axis : Char) (mesh_dim1 mesh_dim2 : Int) : Except SpmdError Int :=
  if mesh_dim1 ≠ mesh_dim2 then
    if mesh_dim1 = -1 then Except.ok mesh_dim2
    else if mesh_dim2 = -1 then Except.ok mesh_dim1
    else Except.error (SpmdError.conflict axis mesh_dim1 mesh_dim2)
  else Except.ok mesh_dim1

/-- The two maps built by `ShardingMergeForTensors`: `axis_to_dim_map` from
axis label to resolved mesh dimension, and `dim_to_axis_map` from mesh
dimension to the string of axis labels recorded against it (modelled as
`List Char`). -/
structure MergeState where
  axis_to_dim_map : List (Char × Int)
  dim_to_axis_map : List (Int × List Char)
deriving DecidableEq

/-- The `dim_to_axis_map` update of the inner loop:
`if count == 0 then insert {merge_dim, tensor_axis} else map[merge_dim] += tensor_axis`.
Note the source appends unconditionally, without checking whether the label
is already recorded for this dimension, and records the `-1` dimension too. -/
def trackDim (m : List (Int × List Char)) (d : Int) (c : Char) : List (Int × List Char) :=
  match lookupA m d with
  | none => m ++ [(d, [c])]
  | some s => assignA m d (s ++ [c])

/-- One iteration of the inner loop of `ShardingMergeForTensors` for the
position `(tensor_axis, mesh_dim) = p`: compute `merge_dim` (directly for a
new label, else via `ShardingMergeForAxis` against the recorded value, which
aborts on conflict), then `axis_to_dim_map.insert({tensor_axis, merge_dim})`
(a no-op when the label is present) and the `dim_to_axis_map` update. -/
def mergeStep (st : MergeState) (p : Char × Int) : Except SpmdError MergeState :=
  match lookupA st.axis_to_dim_map p.1 with
  | none =>
      Except.ok ⟨insertA st.axis_to_dim_map p.1 p.2,
                 trackDim st.dim_to_axis_map p.2 p.1⟩
  | some prev =>
      match ShardingMergeForAxis p.1 p.2 prev with
      | Except.error e => Except.error e
      | Except.ok merge_dim =>
          Except.ok ⟨insertA st.axis_to_dim_map p.1 merge_dim,
                     trackDim st.dim_to_axis_map merge_dim p.1⟩

/-- Sequential processing of a stream of `(axis label, mesh dim)` positions;
an error aborts the whole run. -/
def mergePositions (st : MergeState) (ps : List (Char × Int)) : Except SpmdError MergeState :=
  match ps with
  | [] => Except.ok st
  | p :: rest =>
      match mergeStep st p with
      | Except.error e => Except.error e
      | Except.ok st1 => mergePositions st1 rest

/-- The inner loop of `ShardingMergeForTensors` over one tensor pair: the
positions are `(pair.first.substr(i,1), pair.second[i])` for
`i < pair.second.size()`; on the contract domain (equal lengths) this is the
zip of the two sequences. -/
def processTensor (st : MergeState) (t : List Char × List Int) : Except SpmdError MergeState :=
  mergePositions st (t.1.zip t.2)

/-- The outer loop of `ShardingMergeForTensors` over the tensor pairs. -/
def processTensors (st : MergeState) (tps : List (List Char × List Int)) : Except SpmdError MergeState :=
  match tps with
  | [] => Except.ok st
  | t :: rest =>
      match processTensor st t with
      | Except.error e => Except.error e
      | Except.ok st1 => processTensors st1 rest

/-- Demotion step of the collision-resolution pass for one claim string:
`for i in 1 .. s.size()-1: axis_to_dim_map[s.substr(i,1)] = -1` (the label at
position 0 is left alone). -/
def demoteTail (a : List (Char × Int)) (s : List Char) : List (Char × Int) :=
  match s with
  | [] => a
  | _ :: rest => rest.foldl (fun acc c => assignA acc c (-1)) a

/-- The collision-resolution pass of `ShardingMergeForTensors`: for every
entry of `dim_to_axis_map` whose claim string has more than one character,
every label from position 1 on is assigned `-1` in `axis_to_dim_map`. -/
def resolveCollisions (st : MergeState) : List (Char × Int) :=
  st.dim_to_axis_map.foldl
    (fun a q => if q.2.length > 1 then demoteTail a q.2 else a)
    st.axis_to_dim_map

/-- The stream of `(axis label, mesh dim)` positions processed by the nested
loops of `ShardingMergeForTensors`, in processing order. -/
def allPositions (tps : List (List Char × List Int)) : List (Char × Int) :=
  match tps with
  | [] => []
  | t :: rest => t.1.zip t.2 ++ allPositions rest

/-- `ShardingMergeForTensors` from common.cc: process every position of every
tensor pair (any thrown conflict aborts the call), then run the
collision-resolution pass and return `axis_to_dim_map`. -/
def ShardingMergeForTensors (tps : List (List Char × List Int)) :
    Except SpmdError (List (Char × Int)) :=
  match processTensors ⟨[], []⟩ tps with
  | Except.error e => Except.error e
  | Except.ok st => Except.ok (resolveCollisions st)

/-- `ResoluteOutputPartialDimension` from common.cc.  For every entry of the
merged map, the source tests `out_axis.find(it.first) != std::string::npos`
— i.e. it selects the entries whose axis label DOES occur in the output axis
string — and pushes the value when it is greater than `-1`.  A 1-character
substring search in a string is the character-membership test on the list of
characters. -/
def ResoluteOutputPartialDimension (in_axis_to_dim_map : List (Char × Int))
    (out_axis : List Char) : List Int :=
  match in_axis_to_dim_map with
  | [] => []
  | p :: rest =>
      if p.1 ∈ out_axis then
        (if p.2 > -1 then p.2 :: ResoluteOutputPartialDimension rest out_axis
         else ResoluteOutputPartialDimension rest out_axis)
      else ResoluteOutputPartialDimension rest out_axis

/-- Modelled from the spec: the device mesh is externally owned and is only
referenced here (the mesh and dist-attr headers are not part of the provided
source); the reference is modelled as an opaque identifier. -/
abbrev ProcessMesh := Nat

/-- Modelled from the spec: `TensorDistAttr` (declared in the auto-parallel
dist-attr header, which is not under the provided source).  Per the spec's
data model it carries a device-mesh reference, a sharding vector
(`dims_mapping`, left for the caller to populate on outputs), a
batch-dimension marker, dynamic-dimension flags and an "annotated" flag.
The default-constructed value is unsharded and unannotated. -/
structure TensorDistAttr where
  process_mesh : ProcessMesh
  dims_mapping : List Int
  batch_dim : Int
  dynamic_dims : List Bool
  annotated : Bool
deriving DecidableEq

/-- Modelled from the spec: the value produced by the default constructor
`TensorDistAttr()`. -/
def TensorDistAttr.fresh : TensorDistAttr :=
  ⟨0, [], 0, [], false⟩

/-- `CopyTensorDistAttrForOutput` from common.cc: default-construct a new
descriptor, then copy the process mesh, batch dim and dynamic dims from the
source and set annotated to false.  The source is taken by const reference
and never written; in the pure model the input is untouched by
construction. -/
def CopyTensorDistAttrForOutput (src_dist_attr : TensorDistAttr) : TensorDistAttr :=
  ⟨src_dist_attr.process_mesh,
   TensorDistAttr.fresh.dims_mapping,
   src_dist_attr.batch_dim,
   src_dist_attr.dynamic_dims,
   false⟩

/-- Modelled from the spec: `DistTensorSpec` pairs a tensor's shape with its
distribution attributes (the defining header is not under the provided
source). -/
structure DistTensorSpec where
  shape : List Int
  dist_attr : TensorDistAttr
deriving DecidableEq

/-- Modelled from the spec: the operator-attribute mapping (string key to
attribute value); the attribute payload is opaque to this core. -/
abbrev AttributeMap := List (String × String)

/-- `SPMDRuleBase::InferForward` from common.cc: unconditionally throws an
Unimplemented error naming the base type. -/
def SPMDRuleBase.InferForward (input_specs : List DistTensorSpec)
    (attrs : AttributeMap) : Except SpmdError (List DistTensorSpec) :=
  Except.error (SpmdError.unimplemented
    "InferForward should be called from a derived class of SPMDRuleBase !")

/-- `SPMDRuleBase::InferBackward` from common.cc: unconditionally throws an
Unimplemented error naming the base type. -/
def SPMDRuleBase.InferBackward (output_specs : List DistTensorSpec)
    (attrs : AttributeMap) : Except SpmdError (List DistTensorSpec) :=
  Except.error (SpmdError.unimplemented
    "InferBackward should be called from a derived class of SPMDRuleBase !")

/-! ## Helper lemmas -/

theorem orO_none_right {α : Type} (a : Option α) : orO a none = a := by
  cases a <;> rfl

theorem orO_assoc {α : Type} (a b c : Option α) :
    orO (orO a b) c = orO a (orO b c) := by
  cases a <;> rfl

theorem lookupA_insertA {α β : Type} [DecidableEq α] (m : List (α × β)) (k : α) (v : β)
    (c : α) :
    lookupA (insertA m k v) c = orO (lookupA m c) (if k = c then some v else none) := by
  induction m with
  | nil =>
      simp only [insertA, lookupA, orO]
  | cons p rest ih =>
      by_cases hpk : p.1 = k
      · simp only [insertA, if_pos hpk, lookupA]
        by_cases hpc : p.1 = c
        · simp only [if_pos hpc, orO]
        · have hkc : ¬ k = c := by
            intro h; exact hpc (hpk.trans h)
          simp only [if_neg hpc, if_neg hkc, orO_none_right]
      · simp only [insertA, if_neg hpk, lookupA]
        by_cases hpc : p.1 = c
        · simp only [if_pos hpc, orO]
        · simp only [if_neg hpc, ih]

theorem lookupA_assignA {α β : Type} [DecidableEq α] (m : List (α × β)) (k : α) (v : β)
    (c : α) :
    lookupA (assignA m k v) c = if k = c then some v else lookupA m c := by
  induction m with
  | nil => simp only [assignA, lookupA]
  | cons p rest ih =>
      by_cases hpk : p.1 = k
      · simp only [assignA, if_pos hpk, lookupA]
        by_cases hkc : k = c
        · simp only [if_pos hkc]
        · have hpc : ¬ p.1 = c := by
            intro h; exact hkc (hpk.symm.trans h)
          simp only [if_neg hkc, if_neg hpc]
      · simp only [assignA, if_neg hpk, lookupA]
        by_cases hpc : p.1 = c
        · have hkc : ¬ k = c := by
            intro h; exact hpk (by rw [hpc, h])
          simp only [if_pos hpc, if_neg hkc]
        · simp only [if_neg hpc, ih]

theorem lookupA_mem {α β : Type} [DecidableEq α] {m : List (α × β)} {k : α} {v : β}
    (h : lookupA m k = some v) : (k, v) ∈ m := by
  induction m with
  | nil => simp [lookupA] at h
  | cons p rest ih =>
      by_cases hpk : p.1 = k
      · rw [lookupA, if_pos hpk] at h
        injection h with h
        have : (k, v) = p := by
          obtain ⟨a, b⟩ := p
          simp only [Prod.mk.injEq]
          exact ⟨hpk.symm, h.symm⟩
        rw [this]
        exact List.mem_cons_self p rest
      · rw [lookupA, if_neg hpk] at h
        exact List.mem_cons_of_mem p (ih h)

/-- After a successful `mergeStep` the axis map is the old one with
`insertA` of the processed label. -/
theorem mergeStep_axis {st st1 : MergeState} {p : Char × Int}
    (h : mergeStep st p = Except.ok st1) :
    ∃ md, st1.axis_to_dim_map = insertA st.axis_to_dim_map p.1 md := by
  unfold mergeStep at h
  split at h
  · injection h with h
    exact ⟨p.2, by rw [← h]⟩
  · split at h
    · exact absurd h (by simp)
    · injection h with h
      exact ⟨_, by rw [← h]⟩

/-- Lookup through a successful `mergeStep`: the recorded value of a label is
its old value if present, else the incoming dimension of this position. -/
theorem mergeStep_lookup {st st1 : MergeState} {p : Char × Int}
    (h : mergeStep st p = Except.ok st1) (c : Char) :
    lookupA st1.axis_to_dim_map c =
      orO (lookupA st.axis_to_dim_map c) (if p.1 = c then some p.2 else none) := by
  unfold mergeStep at h
  split at h
  · injection h with h
    rw [← h]
    show lookupA (insertA st.axis_to_dim_map p.1 p.2) c = _
    rw [lookupA_insertA]
  · next prev hl =>
      split at h
      · exact absurd h (by simp)
      · next md hmerge =>
          injection h with h
          rw [← h]
          show lookupA (insertA st.axis_to_dim_map p.1 md) c = _
          rw [lookupA_insertA]
          by_cases hpc : p.1 = c
          · rw [← hpc, hl]
            simp only [orO]
          · rw [if_neg hpc, if_neg hpc]

/-- The combined "first value" of a label is invariant under shifting one
successfully processed position from the stream into the state. -/
theorem mergeStep_orO {st st1 : MergeState} {p : Char × Int}
    (h : mergeStep st p = Except.ok st1) (rest : List (Char × Int)) (c : Char) :
    orO (lookupA st1.axis_to_dim_map c) (lookupA rest c) =
      orO (lookupA st.axis_to_dim_map c) (lookupA (p :: rest) c) := by
  rw [mergeStep_lookup h c, orO_assoc]
  have : orO (if p.1 = c then some p.2 else none) (lookupA rest c) =
      lookupA (p :: rest) c := by
    by_cases hpc : p.1 = c
    · simp only [if_pos hpc, orO, lookupA]
    · simp only [if_neg hpc, orO, lookupA]
  rw [this]

/-- The recorded value of every label after a successful run over a position
stream is its value in the starting state if present there, else the
dimension of its first occurrence in the stream.  Later occurrences never
change it, because the source updates `axis_to_dim_map` with `insert`, which
is a no-op on an existing key. -/
theorem mergePositions_lookup :
    ∀ (ps : List (Char × Int)) (st st1 : MergeState),
      mergePositions st ps = Except.ok st1 →
      ∀ c, lookupA st1.axis_to_dim_map c =
        orO (lookupA st.axis_to_dim_map c) (lookupA ps c) := by
  intro ps
  induction ps with
  | nil =>
      intro st st1 h c
      unfold mergePositions at h
      injection h with h
      rw [← h, lookupA, orO_none_right]
  | cons p rest ih =>
      intro st st1 h c
      unfold mergePositions at h
      cases hstep : mergeStep st p with
      | error e => rw [hstep] at h; exact absurd h (by simp)
      | ok stA =>
          rw [hstep] at h
          rw [ih stA st1 h c, mergeStep_orO hstep rest c]

/-- A run over a position stream fails if and only if some position carries a
dimension that conflicts (both non-`-1` and different) with the "first value"
of its label — the label's value in the starting state if present, else the
dimension of the label's first occurrence in the stream. -/
theorem mergePositions_error_iff :
    ∀ (ps : List (Char × Int)) (st : MergeState),
      (∃ e, mergePositions st ps = Except.error e) ↔
      (∃ c d v0, (c, d) ∈ ps ∧
        orO (lookupA st.axis_to_dim_map c) (lookupA ps c) = some v0 ∧
        d ≠ v0 ∧ d ≠ -1 ∧ v0 ≠ -1) := by
  intro ps
  induction ps with
  | nil =>
      intro st
      constructor
      · rintro ⟨e, he⟩
        unfold mergePositions at he
        exact absurd he (by simp)
      · rintro ⟨c, d, v0, hmem, _⟩
        exact absurd hmem (List.not_mem_nil _)
  | cons p rest ih =>
      intro st
      obtain ⟨c0, d0⟩ := p
      cases hl : lookupA st.axis_to_dim_map c0 with
      | none =>
          have hstep : mergeStep st (c0, d0) =
              Except.ok ⟨insertA st.axis_to_dim_map c0 d0,
                         trackDim st.dim_to_axis_map d0 c0⟩ := by
            simp only [mergeStep, hl]
          constructor
          · rintro ⟨e, he⟩
            unfold mergePositions at he
            rw [hstep] at he
            obtain ⟨c, d, v0, hmem, hor, hdv, hd1, hv1⟩ := (ih _).mp ⟨e, he⟩
            refine ⟨c, d, v0, List.mem_cons_of_mem _ hmem, ?_, hdv, hd1, hv1⟩
            rw [← mergeStep_orO hstep rest c]
            exact hor
          · rintro ⟨c, d, v0, hmem, hor, hdv, hd1, hv1⟩
            rcases List.mem_cons.mp hmem with hp | hmem2
            · -- the head position itself can never be a conflict witness:
              -- its label's first value is its own dimension
              injection hp with hc hd
              subst hc
              subst hd
              rw [hl] at hor
              simp [orO, lookupA] at hor
              exact absurd hor hdv
            · have hor2 : orO (lookupA (MergeState.mk (insertA st.axis_to_dim_map c0 d0)
                  (trackDim st.dim_to_axis_map d0 c0)).axis_to_dim_map c)
                  (lookupA rest c) = some v0 := by
                rw [mergeStep_orO hstep rest c]
                exact hor
              obtain ⟨e, he⟩ := (ih _).mpr ⟨c, d, v0, hmem2, hor2, hdv, hd1, hv1⟩
              refine ⟨e, ?_⟩
              unfold mergePositions
              rw [hstep]
              exact he
      | some prev =>
          by_cases hconf : d0 ≠ prev ∧ d0 ≠ -1 ∧ prev ≠ -1
          · obtain ⟨hne, hd0, hprev⟩ := hconf
            have hax : ShardingMergeForAxis c0 d0 prev =
                Except.error (SpmdError.conflict c0 d0 prev) := by
              unfold ShardingMergeForAxis
              rw [if_pos hne, if_neg hd0, if_neg hprev]
            have hstep : mergeStep st (c0, d0) =
                Except.error (SpmdError.conflict c0 d0 prev) := by
              simp only [mergeStep, hl, hax]
            constructor
            · rintro ⟨e, he⟩
              refine ⟨c0, d0, prev, List.mem_cons_self _ _, ?_, hne, hd0, hprev⟩
              rw [hl]
              simp only [orO]
            · rintro ⟨c, d, v0, hmem, hor, hdv, hd1, hv1⟩
              refine ⟨SpmdError.conflict c0 d0 prev, ?_⟩
              unfold mergePositions
              rw [hstep]
          · have hok : ∃ md, ShardingMergeForAxis c0 d0 prev = Except.ok md := by
              unfold ShardingMergeForAxis
              by_cases h1 : d0 ≠ prev
              · by_cases h2 : d0 = -1
                · exact ⟨prev, by rw [if_pos h1, if_pos h2]⟩
                · have h3 : prev = -1 := by
                    by_contra h3
                    exact hconf ⟨h1, h2, h3⟩
                  exact ⟨d0, by rw [if_pos h1, if_neg h2, if_pos h3]⟩
              · exact ⟨d0, by rw [if_neg h1]⟩
            obtain ⟨md, hax⟩ := hok
            have hstep : mergeStep st (c0, d0) =
                Except.ok ⟨insertA st.axis_to_dim_map c0 md,
                           trackDim st.dim_to_axis_map md c0⟩ := by
              simp only [mergeStep, hl, hax]
            constructor
            · rintro ⟨e, he⟩
              unfold mergePositions at he
              rw [hstep] at he
              obtain ⟨c, d, v0, hmem, hor, hdv, hd1, hv1⟩ := (ih _).mp ⟨e, he⟩
              refine ⟨c, d, v0, List.mem_cons_of_mem _ hmem, ?_, hdv, hd1, hv1⟩
              rw [← mergeStep_orO hstep rest c]
              exact hor
            · rintro ⟨c, d, v0, hmem, hor, hdv, hd1, hv1⟩
              rcases List.mem_cons.mp hmem with hp | hmem2
              · injection hp with hc hd
                subst hc
                subst hd
                rw [hl] at hor
                simp only [orO] at hor
                injection hor with hv0
                subst hv0
                exact absurd ⟨fun hh => hdv hh, hd1, fun hh => hv1 hh⟩ hconf
              · have hor2 : orO (lookupA (MergeState.mk (insertA st.axis_to_dim_map c0 md)
                    (trackDim st.dim_to_axis_map md c0)).axis_to_dim_map c)
                    (lookupA rest c) = some v0 := by
                  rw [mergeStep_orO hstep rest c]
                  exact hor
                obtain ⟨e, he⟩ := (ih _).mpr ⟨c, d, v0, hmem2, hor2, hdv, hd1, hv1⟩
                refine ⟨e, ?_⟩
                unfold mergePositions
                rw [hstep]
                exact he

/-- Unfolding `mergePositions` at a cons. -/
theorem mergePositions_cons (st : MergeState) (p : Char × Int) (ps : List (Char × Int)) :
    mergePositions st (p :: ps) =
      match mergeStep st p with
      | Except.error e => Except.error e
      | Except.ok st1 => mergePositions st1 ps := rfl

/-- Splitting a run over a concatenated stream. -/
theorem mergePositions_append :
    ∀ (ps qs : List (Char × Int)) (st : MergeState),
      mergePositions st (ps ++ qs) =
        match mergePositions st ps with
        | Except.error e => Except.error e
        | Except.ok st1 => mergePositions st1 qs := by
  intro ps
  induction ps with
  | nil => intro qs st; rfl
  | cons p rest ih =>
      intro qs st
      rw [List.cons_append, mergePositions_cons, mergePositions_cons]
      cases hstep : mergeStep st p with
      | error e => rfl
      | ok st1 => exact ih qs st1

/-- The nested loops of `ShardingMergeForTensors` are the run over the
concatenated position stream. -/
theorem processTensors_eq :
    ∀ (tps : List (List Char × List Int)) (st : MergeState),
      processTensors st tps = mergePositions st (allPositions tps) := by
  intro tps
  induction tps with
  | nil => intro st; rfl
  | cons t rest ih =>
      intro st
      show (match processTensor st t with
        | Except.error e => Except.error e
        | Except.ok st1 => processTensors st1 rest) =
        mergePositions st (t.1.zip t.2 ++ allPositions rest)
      rw [mergePositions_append]
      unfold processTensor
      cases h : mergePositions st (t.1.zip t.2) with
      | error e => rfl
      | ok st1 => exact ih st1

/-- A successful merge call exposes the final loop state. -/
theorem merge_ok_elim {tps : List (List Char × List Int)} {m : List (Char × Int)}
    (h : ShardingMergeForTensors tps = Except.ok m) :
    ∃ st, mergePositions ⟨[], []⟩ (allPositions tps) = Except.ok st ∧
      m = resolveCollisions st := by
  unfold ShardingMergeForTensors at h
  cases hp : processTensors ⟨[], []⟩ tps with
  | error e => rw [hp] at h; exact absurd h (by simp)
  | ok st =>
      rw [hp] at h
      injection h with h
      exact ⟨st, by rw [← processTensors_eq]; exact hp, h.symm⟩

/-- The merge call fails exactly when the position-stream run fails. -/
theorem merge_error_iff (tps : List (List Char × List Int)) :
    (∃ e, ShardingMergeForTensors tps = Except.error e) ↔
    (∃ e, mergePositions ⟨[], []⟩ (allPositions tps) = Except.error e) := by
  unfold ShardingMergeForTensors
  rw [← processTensors_eq]
  cases hp : processTensors ⟨[], []⟩ tps with
  | error e =>
      constructor
      · rintro ⟨eo, _⟩; exact ⟨e, rfl⟩
      · rintro ⟨eo, _⟩; exact ⟨e, rfl⟩
  | ok st =>
      constructor
      · rintro ⟨eo, he⟩; exact absurd he (by simp)
      · rintro ⟨eo, he⟩; exact absurd he (by simp)

/-- Lookup through the demotion fold: every value is either unchanged or has
become `-1`. -/
theorem demoteFold_lookup :
    ∀ (s : List Char) (a : List (Char × Int)) (c : Char),
      lookupA (s.foldl (fun acc x => assignA acc x (-1)) a) c = lookupA a c ∨
      lookupA (s.foldl (fun acc x => assignA acc x (-1)) a) c = some (-1) := by
  intro s
  induction s with
  | nil => intro a c; exact Or.inl rfl
  | cons x rest ih =>
      intro a c
      rw [List.foldl_cons]
      rcases ih (assignA a x (-1)) c with h | h
      · rw [h, lookupA_assignA]
        by_cases hxc : x = c
        · exact Or.inr (by rw [if_pos hxc])
        · exact Or.inl (by rw [if_neg hxc])
      · exact Or.inr h

/-- Lookup through the whole collision-resolution pass: every label keeps its
phase-one value or is demoted to `-1`. -/
theorem resolveCollisions_lookup (st : MergeState) (c : Char) :
    lookupA (resolveCollisions st) c = lookupA st.axis_to_dim_map c ∨
    lookupA (resolveCollisions st) c = some (-1) := by
  unfold resolveCollisions
  generalize st.axis_to_dim_map = a
  induction st.dim_to_axis_map generalizing a with
  | nil => exact Or.inl rfl
  | cons q rest ih =>
      rw [List.foldl_cons]
      have hstep : lookupA (if q.2.length > 1 then demoteTail a q.2 else a) c = lookupA a c ∨
          lookupA (if q.2.length > 1 then demoteTail a q.2 else a) c = some (-1) := by
        by_cases hq : q.2.length > 1
        · rw [if_pos hq]
          unfold demoteTail
          cases q.2 with
          | nil => exact Or.inl rfl
          | cons x rest2 => exact demoteFold_lookup rest2 a c
        · rw [if_neg hq]
          exact Or.inl rfl
      rcases ih (if q.2.length > 1 then demoteTail a q.2 else a) with h | h
      · rcases hstep with h2 | h2
        · exact Or.inl (h.trans h2)
        · exact Or.inr (h.trans h2)
      · exact Or.inr h

/-- Every dimension occurring in the position stream comes from some tensor's
sharding vector. -/
theorem allPositions_mem_dims :
    ∀ (tps : List (List Char × List Int)) (c : Char) (d : Int),
      (c, d) ∈ allPositions tps → ∃ t, t ∈ tps ∧ d ∈ t.2 := by
  intro tps
  induction tps with
  | nil => intro c d h; exact absurd h (List.not_mem_nil _)
  | cons t rest ih =>
      intro c d h
      unfold allPositions at h
      rcases List.mem_append.mp h with h1 | h2
      · exact ⟨t, List.mem_cons_self _ _, (List.of_mem_zip h1).2⟩
      · obtain ⟨t1, ht1, hd⟩ := ih c d h2
        exact ⟨t1, List.mem_cons_of_mem _ ht1, hd⟩

/-! ## Claim theorems -/

/-- Claim C1: the spec's partial-dimension scenario — inputs `"ik"`/`[0,1]`
and `"kj"`/`[1,-1]` should merge to `{i:0, k:1, j:-1}`, and the resolver on
that map with output `"ij"` should return `[1]`.  The code disagrees on both
counts: the merge demotes `k` to `-1` (the repeated `k`/dim-1 position is
appended to dim 1's claim string, which becomes `"kk"` and triggers the
demotion pass), and the resolver returns `[0]` because it selects the axes
that DO appear in the output.  This theorem records the code's actual
behaviour on the scenario (on both the spec-claimed map and the map the code
actually produces). -/
theorem C1_code_behavior :
    ShardingMergeForTensors [(['i', 'k'], [0, 1]), (['k', 'j'], [1, -1])] =
      Except.ok [('i', 0), ('k', -1), ('j', -1)] ∧
    ResoluteOutputPartialDimension [('i', 0), ('k', 1), ('j', -1)] ['i', 'j'] = [0] ∧
    ResoluteOutputPartialDimension [('i', 0), ('k', -1), ('j', -1)] ['i', 'j'] = [0] :=
  ⟨rfl, rfl, rfl⟩

/-- Claim C2: the resolver should return the concrete dimensions of the map
entries whose axis label does NOT appear among the output's labels.  The
code's condition is reversed (`find != npos`): it returns the concrete
dimensions of the labels that DO appear in the output.  On `{k:1}` with
output `"ij"` the claim demands `[1]` but the code returns `[]`; on `{i:0}`
with output `"ij"` the claim demands `[]` but the code returns `[0]`. -/
theorem C2_code_behavior :
    ResoluteOutputPartialDimension [('k', 1)] ['i', 'j'] = [] ∧
    ResoluteOutputPartialDimension [('i', 0)] ['i', 'j'] = [0] :=
  ⟨rfl, rfl⟩

/-- Claim C3: after a label recorded as replicated (`-1`) meets a concrete
dimension, the map should hold the pairwise-merge result (the concrete
dimension).  The code computes that result (`ShardingMergeForAxis 'a' 0 (-1)
= 0`) but stores it with `unordered_map::insert`, which is a no-op on an
existing key, so the map still holds `-1` for the label. -/
theorem C3_code_behavior :
    ShardingMergeForTensors [([('a' : Char)], [(-1 : Int)]), ([('a' : Char)], [(0 : Int)])] =
      Except.ok [('a', -1)] ∧
    ShardingMergeForAxis 'a' 0 (-1) = Except.ok 0 :=
  ⟨rfl, rfl⟩

/-- Claim C4: merging a tensor with itself should be idempotent.  On
`n = "a"`, `s = [0]` the single-tensor merge yields `{a:0}`, but the doubled
input yields `{a:-1}`: the second occurrence appends `'a'` again to mesh dim
0's claim string (now `"aa"`), and the collision pass demotes every label
after position 0 — including the duplicate of the sole owner. -/
theorem C4_code_behavior :
    ShardingMergeForTensors [([('a' : Char)], [(0 : Int)])] = Except.ok [('a', 0)] ∧
    ShardingMergeForTensors [([('a' : Char)], [(0 : Int)]), ([('a' : Char)], [(0 : Int)])] =
      Except.ok [('a', -1)] :=
  ⟨rfl, rfl⟩

/-- Claim C5: when several distinct labels claim one concrete dimension, the
first claiming label should keep it and only the others be demoted.  On
`[("ab",[0,0]), ("a",[0])]` mesh dim 0's claim string becomes `"aba"` (the
source appends on every occurrence, without de-duplication), and the pass
demotes every position after the first — so the first claiming label `a` is
demoted too and the code returns `{a:-1, b:-1}` instead of `{a:0, b:-1}`. -/
theorem C5_code_behavior :
    ShardingMergeForTensors [(['a', 'b'], [0, 0]), ([('a' : Char)], [(0 : Int)])] =
      Except.ok [('a', -1), ('b', -1)] :=
  rfl

/-- Claim C6: for every axis label and two distinct concrete (non-negative)
mesh dimensions, the pairwise merge rule fails with the conflict error
identifying the axis and both dimensions, and a merge call in which this
case arises aborts entirely with that error and returns no map: here the
two-tensor call that records the label at `d1` and then meets `d2`. -/
theorem C6_conflict_error (axis : Char) (d1 d2 : Int)
    (h1 : 0 ≤ d1) (h2 : 0 ≤ d2) (hne : d1 ≠ d2) :
    ShardingMergeForAxis axis d1 d2 = Except.error (SpmdError.conflict axis d1 d2) ∧
    ShardingMergeForTensors [([axis], [d1]), ([axis], [d2])] =
      Except.error (SpmdError.conflict axis d2 d1) := by
  have h1m : ¬ d1 = -1 := by omega
  have h2m : ¬ d2 = -1 := by omega
  have hne2 : d2 ≠ d1 := fun hh => hne hh.symm
  constructor
  · unfold ShardingMergeForAxis
    rw [if_pos hne, if_neg h1m, if_neg h2m]
  · have hax : ShardingMergeForAxis axis d2 d1 =
        Except.error (SpmdError.conflict axis d2 d1) := by
      unfold ShardingMergeForAxis
      rw [if_pos hne2, if_neg h2m, if_neg h1m]
    have hlook : lookupA [(axis, d1)] axis = some d1 := by
      rw [lookupA, if_pos rfl]
    have hstep : mergeStep ⟨[(axis, d1)], [(d1, [axis])]⟩ (axis, d2) =
        Except.error (SpmdError.conflict axis d2 d1) := by
      simp only [mergeStep, hlook, hax]
    have hstep1 : mergeStep ⟨[], []⟩ (axis, d1) =
        Except.ok ⟨[(axis, d1)], [(d1, [axis])]⟩ := rfl
    unfold ShardingMergeForTensors processTensors processTensor
    rw [show ([axis] : List Char).zip [d1] = [(axis, d1)] from rfl]
    unfold mergePositions
    rw [hstep1]
    unfold mergePositions processTensors processTensor
    rw [show ([axis] : List Char).zip [d2] = [(axis, d2)] from rfl]
    unfold mergePositions
    rw [hstep]

/-- Witness for C6 at `axis = 'x'`, `d1 = 0`, `d2 = 1`. -/
theorem C6_conflict_error_witness :
    ShardingMergeForAxis 'x' 0 1 = Except.error (SpmdError.conflict 'x' 0 1) ∧
    ShardingMergeForTensors [([('x' : Char)], [(0 : Int)]), ([('x' : Char)], [(1 : Int)])] =
      Except.error (SpmdError.conflict 'x' 1 0) :=
  C6_conflict_error 'x' 0 1 (by omega) (by omega) (by omega)

/-- Claim C7 (implicit invariant): when the merge succeeds, every label's
value in the returned map is the mesh dimension of the label's first
occurrence in input order, or `-1` when the label was demoted by the
collision pass; later occurrences never change the recorded value, since the
source stores with `insert` (a no-op on existing keys). -/
theorem C7_value_stability (tps : List (List Char × List Int))
    (hWf : ∀ t ∈ tps, t.1.length = t.2.length)
    (m : List (Char × Int)) (h : ShardingMergeForTensors tps = Except.ok m) :
    ∀ c v, lookupA m c = some v →
      lookupA (allPositions tps) c = some v ∨ v = -1 := by
  obtain ⟨st, hst, hm⟩ := merge_ok_elim h
  intro c v hv
  rw [hm] at hv
  rcases resolveCollisions_lookup st c with hre | hre
  · rw [hre] at hv
    have hlk := mergePositions_lookup (allPositions tps) ⟨[], []⟩ st hst c
    rw [hv] at hlk
    left
    have h0 : orO (lookupA (MergeState.mk [] []).axis_to_dim_map c)
        (lookupA (allPositions tps) c) = lookupA (allPositions tps) c := rfl
    rw [h0] at hlk
    exact hlk.symm
  · rw [hre] at hv
    injection hv with hv
    exact Or.inr hv.symm

/-- Witness for C7 on the single tensor `("a", [2])`. -/
theorem C7_value_stability_witness :
    ShardingMergeForTensors [([('a' : Char)], [(2 : Int)])] = Except.ok [('a', 2)] ∧
    (lookupA (allPositions [([('a' : Char)], [(2 : Int)])]) 'a' = some 2 ∨ (2 : Int) = -1) :=
  ⟨rfl,
   C7_value_stability [([('a' : Char)], [(2 : Int)])] (by decide)
     [('a', 2)] rfl 'a' 2 rfl⟩

/-- Claim C8 (implicit raises-iff): over well-formed inputs (notation and
sharding vector of equal length, mesh dimensions `≥ -1`), the merge fails
exactly when some label whose first occurrence carries a concrete
(non-negative) dimension has another occurrence carrying a different
concrete dimension.  In particular, a label first seen as `-1` and then
claimed by two different concrete dimensions does not fail the call, because
the recorded value never leaves `-1` (the `insert` no-op) and the pairwise
rule always lets a concrete dimension win over the recorded `-1`. -/
theorem C8_raises_iff (tps : List (List Char × List Int))
    (hWf : ∀ t ∈ tps, t.1.length = t.2.length)
    (hDims : ∀ t ∈ tps, ∀ d ∈ t.2, -1 ≤ d) :
    (∃ e, ShardingMergeForTensors tps = Except.error e) ↔
    (∃ c v0 d, lookupA (allPositions tps) c = some v0 ∧ 0 ≤ v0 ∧
      (c, d) ∈ allPositions tps ∧ 0 ≤ d ∧ d ≠ v0) := by
  rw [merge_error_iff, mergePositions_error_iff]
  have hbound : ∀ c d, (c, d) ∈ allPositions tps → -1 ≤ d := by
    intro c d hm
    obtain ⟨t, ht, hd⟩ := allPositions_mem_dims tps c d hm
    exact hDims t ht d hd
  constructor
  · rintro ⟨c, d, v0, hmem, hor, hdv, hd1, hv1⟩
    have hor2 : lookupA (allPositions tps) c = some v0 := by
      rw [show lookupA (⟨[], []⟩ : MergeState).axis_to_dim_map c = none from rfl,
        show orO none (lookupA (allPositions tps) c) = lookupA (allPositions tps) c
          from rfl] at hor
      exact hor
    have hv0mem : (c, v0) ∈ allPositions tps := lookupA_mem hor2
    have hv0b : -1 ≤ v0 := hbound c v0 hv0mem
    have hdb : -1 ≤ d := hbound c d hmem
    exact ⟨c, v0, d, hor2, by omega, hmem, by omega, hdv⟩
  · rintro ⟨c, v0, d, hlk, hv0, hmem, hd, hdv⟩
    refine ⟨c, d, v0, hmem, ?_, hdv, by omega, by omega⟩
    rw [show lookupA (⟨[], []⟩ : MergeState).axis_to_dim_map c = none from rfl]
    exact hlk

/-- Witness for C8 on `[("a",[-1]), ("a",[0]), ("a",[1])]`: the label is
first seen replicated and then claimed by two different concrete dimensions,
and the instantiated equivalence shows the call's failure is equivalent to
the (here false) existence of a concrete-first-occurrence conflict. -/
theorem C8_raises_iff_witness :
    (∃ e, ShardingMergeForTensors
        [([('a' : Char)], [(-1 : Int)]), ([('a' : Char)], [(0 : Int)]),
         ([('a' : Char)], [(1 : Int)])] = Except.error e) ↔
    (∃ c v0 d, lookupA (allPositions
        [([('a' : Char)], [(-1 : Int)]), ([('a' : Char)], [(0 : Int)]),
         ([('a' : Char)], [(1 : Int)])]) c = some v0 ∧ 0 ≤ v0 ∧
      (c, d) ∈ allPositions
        [([('a' : Char)], [(-1 : Int)]), ([('a' : Char)], [(0 : Int)]),
         ([('a' : Char)], [(1 : Int)])] ∧ 0 ≤ d ∧ d ≠ v0) :=
  C8_raises_iff _ (by decide) (by decide)

/-- Claim C9: `CopyTensorDistAttrForOutput` returns a descriptor whose
process-mesh reference, batch dimension and dynamic-dimension flags equal the
source's and whose annotated flag is false, for every source (in particular
regardless of the source's annotated flag); being a pure function of an
unmodified argument, it leaves the source unchanged. -/
theorem C9_copy_for_output (src : TensorDistAttr) :
    (CopyTensorDistAttrForOutput src).process_mesh = src.process_mesh ∧
    (CopyTensorDistAttrForOutput src).batch_dim = src.batch_dim ∧
    (CopyTensorDistAttrForOutput src).dynamic_dims = src.dynamic_dims ∧
    (CopyTensorDistAttrForOutput src).annotated = false :=
  ⟨rfl, rfl, rfl, rfl⟩

/-- Claim C10: on the unextended base rule type, forward and backward
inference fail with the Unimplemented error identifying the base type for
every input; since the result is the error constructor, no value is ever
returned. -/
theorem C10_base_unimplemented (input_specs output_specs : List DistTensorSpec)
    (attrs : AttributeMap) :
    SPMDRuleBase.InferForward input_specs attrs =
      Except.error (SpmdError.unimplemented
        "InferForward should be called from a derived class of SPMDRuleBase !") ∧
    SPMDRuleBase.InferBackward output_specs attrs =
      Except.error (SpmdError.unimplemented
        "InferBackward should be called from a derived class of SPMDRuleBase !") :=
  ⟨rfl, rfl⟩
